import Mathlib

/-
Verification of the forecast-chart core of the stock-prediction-app
repository, shallowly embedded in Lean 4.

Embedded source files:
  - src/frontend/src/libs/chart/scale.ts            (createLinear, niceStep, niceDomain)
  - src/frontend/src/libs/chart/types.ts            (Series, note placement:
      collectSegmentsFromSeries, distPointToSeg, clamp, placeNoteAuto)
  - src/frontend/src/components/molecules/LineSeries/LineSeries.tsx
      (gap-aware run splitting into sub-polylines)
  - src/frontend/src/components/organisms/ForecastChart/ForecastChart.tsx
      and the animated chart variant (src/unnamed/part_020):
      lastActualIndex, buildPredictedWithAnchor / predictedForDraw,
      splitX, predClipWidth, the reveal-animation easing.

Modelling conventions.  A JavaScript number slot in a data series is
`Option JNum`: `none` is `null`/`undefined`/out-of-bounds, and `JNum`
separates finite numbers (exact rationals) from `NaN` and the infinities,
so the source's two distinct guards `v == null` and `Number.isFinite(v)`
keep their distinct meanings.  Pixel arithmetic is exact rational
arithmetic.  `Math.hypot` is `Real.sqrt` of the sum of squares, and the
`Number.POSITIVE_INFINITY` sentinel of the placement loop is the top
element of `EReal`.  JavaScript `for` loops are embedded as structural
recursion carrying the loop counter and the mutable accumulator.
-/

inductive JNum where
  | fin (q : ℚ)
  | nan
  | posInf
  | negInf
deriving DecidableEq, Repr

/-- A data series: one slot per time step (types.ts `Series`). -/
abbrev Series := List (Option JNum)

/-- Defined so that `finVal? v = some q` exactly when the slot holds a non-null finite
number `q`, i.e. when the source guard `v != null && Number.isFinite(v)`
passes. -/
def finVal? : Option JNum → Option ℚ
  | some (JNum.fin q) => some q
  | _ => none

/-- JavaScript `x || 1` on a number known not to be NaN: replaces `0`
by `1` (the `(d1 - d0 || 1)` and `(lenSq || 1)` guards of the source). -/
def jsOr1 (x : ℚ) : ℚ := if x = 0 then 1 else x

/-- Mirrors `createLinear([d0,d1],[r0,r1])` from scale.ts: affine map with the
degenerate-domain guard on the slope denominator. -/
def createLinear (d0 d1 r0 r1 : ℚ) : ℚ → ℚ :=
  fun v => r0 + (v - d0) * ((r1 - r0) / jsOr1 (d1 - d0))

/-- Mirrors `niceStep` from scale.ts.  `Math.floor(Math.log10 |r|)` is
`Int.log 10 |r|` (for `r = 0` the source would produce `-Infinity`;
`Int.log 10 0 = 0` is a junk value never reached by `niceDomain`). -/
def niceStep (rawStep : ℚ) : ℚ :=
  let pow10 : ℚ := (10 : ℚ) ^ (Int.log 10 |rawStep|)
  let err := rawStep / pow10
  let nice : ℚ :=
    if 15 / 2 ≤ err then 10
    else if 7 / 2 ≤ err then 5
    else if 3 / 2 ≤ err then 2
    else 1
  nice * pow10

/-- Mirrors `niceDomain([min,max], ticksCount)` from scale.ts. -/
def niceDomain (mn mx ticksCount : ℚ) : ℚ × ℚ :=
  if mn = mx then (mn - 1, mx + 1)
  else
    let span := mx - mn
    let step := niceStep (span / max 1 ticksCount)
    (⌊mn / step⌋ * step, ⌈mx / step⌉ * step)

/-- The descending scan of `lastActualIndex` (ForecastChart.tsx lines
115-121): `lastActualIdxAux actual m` inspects indices `m-1, m-2, ..., 0`
and returns the first one holding a non-null finite value. -/
def lastActualIdxAux (actual : Series) : ℕ → Option ℕ
  | 0 => none
  | m + 1 =>
    if (finVal? (actual.getD m none)).isSome then some m
    else lastActualIdxAux actual m

/-- The full `lastActualIndex` scan: the loop starts at `Math.min(predictStartIndex, n) - 1`;
`none` models the `-1` sentinel. -/
def lastActualIndex (actual : Series) (predictStartIndex n : ℕ) : Option ℕ :=
  lastActualIdxAux actual (min predictStartIndex n)

/-- Mirrors `lastActualValue = lastActualIndex >= 0 ? actual[lastActualIndex] : null`. -/
def lastActualValue (actual : Series) (predictStartIndex n : ℕ) : Option ℚ :=
  match lastActualIndex actual predictStartIndex n with
  | some i => finVal? (actual.getD i none)
  | none => none

/-- Mirrors `buildPredictedWithAnchor` (ForecastChart.tsx lines 134-143, identical
to `predictedForDraw` of the animated chart): copy the predicted series
and, only when the slot at `lastActualIndex` is `null`, write the last
actual value there. -/
def buildPredictedWithAnchor (anchorAtCurrent : Bool) (actual predicted : Series)
    (predictStartIndex n : ℕ) : Series :=
  match anchorAtCurrent, lastActualIndex actual predictStartIndex n,
      lastActualValue actual predictStartIndex n with
  | true, some i, some v =>
    if predicted.getD i none = none then predicted.set i (some (JNum.fin v))
    else predicted
  | _, _, _ => predicted

/-- One line segment between two pixel points (types.ts `LineSeg`). -/
structure LineSeg where
  x1 : ℚ
  y1 : ℚ
  x2 : ℚ
  y2 : ℚ
deriving DecidableEq, Repr

/-- Loop body of `collectSegmentsFromSeries` (types.ts lines 63-83) as
structural recursion: `i` is the loop counter and `prev` the last defined
point (reset to `none` at every gap). -/
def collectSegsAux (xOf : ℕ → ℚ) (yOf : ℚ → ℚ) :
    ℕ → Option (ℚ × ℚ) → Series → List LineSeg
  | _, _, [] => []
  | i, prev, v :: rest =>
    match finVal? v with
    | none => collectSegsAux xOf yOf (i + 1) none rest
    | some q =>
      match prev with
      | none => collectSegsAux xOf yOf (i + 1) (some (xOf i, yOf q)) rest
      | some pr =>
        ⟨pr.1, pr.2, xOf i, yOf q⟩ ::
          collectSegsAux xOf yOf (i + 1) (some (xOf i, yOf q)) rest

/-- Mirrors `collectSegmentsFromSeries` from types.ts. -/
def collectSegmentsFromSeries (series : Series) (xOf : ℕ → ℚ) (yOf : ℚ → ℚ) :
    List LineSeg :=
  collectSegsAux xOf yOf 0 none series

/-- Loop body of the run splitting of LineSeries.tsx (lines 67-81) as
structural recursion: `curr` is the current run of points; a gap flushes
`curr` when it has more than one point and discards it otherwise. -/
def buildSubpathsAux (xOf : ℕ → ℚ) (yOf : ℚ → ℚ) :
    ℕ → List (ℚ × ℚ) → Series → List (List (ℚ × ℚ))
  | _, curr, [] => if 1 < curr.length then [curr] else []
  | i, curr, v :: rest =>
    match finVal? v with
    | none =>
      (if 1 < curr.length then [curr] else []) ++
        buildSubpathsAux xOf yOf (i + 1) [] rest
    | some q => buildSubpathsAux xOf yOf (i + 1) (curr ++ [(xOf i, yOf q)]) rest

/-- The sub-polylines (`segs`) computed by LineSeries.tsx. -/
def buildSubpaths (series : Series) (xOf : ℕ → ℚ) (yOf : ℚ → ℚ) :
    List (List (ℚ × ℚ)) :=
  buildSubpathsAux xOf yOf 0 [] series

/-- Index-instrumented view of the LineSeries run splitting: identical
control flow, but each run keeps the series index with the value. -/
def buildRunsAux : ℕ → List (ℕ × ℚ) → Series → List (List (ℕ × ℚ))
  | _, curr, [] => if 1 < curr.length then [curr] else []
  | i, curr, v :: rest =>
    match finVal? v with
    | none =>
      (if 1 < curr.length then [curr] else []) ++ buildRunsAux (i + 1) [] rest
    | some q => buildRunsAux (i + 1) (curr ++ [(i, q)]) rest

/-- The runs of `buildSubpaths`, with indices. -/
def buildRunsIdx (series : Series) : List (List (ℕ × ℚ)) := buildRunsAux 0 [] series

inductive ArrowSide where
  | top
  | right
  | bottom
  | left
deriving DecidableEq, Repr

structure PlacementResult where
  left : ℚ
  top : ℚ
  arrowSide : ArrowSide
deriving DecidableEq, Repr

/-- The options record of `placeNoteAuto`.  The JS defaults
(`cols = 8`, `rows = 4`, `forecastBias = 1.1`, `320×76`, `inset = 8`)
are applied by the destructuring in the source; here every call site
carries the values explicitly. -/
structure NotePlacementOptions where
  plotX1 : ℚ
  plotY1 : ℚ
  plotX2 : ℚ
  plotY2 : ℚ
  predictStartIndex : ℕ
  xOfIndex : ℕ → ℚ
  yOfValue : ℚ → ℚ
  cols : ℕ
  rows : ℕ
  forecastBias : ℚ
  noteWidth : ℚ
  noteHeight : ℚ
  inset : ℚ

/-- The `dot` of `distPointToSeg`: `A*C + B*D`. -/
def distDot (px py : ℚ) (s : LineSeg) : ℚ :=
  (px - s.x1) * (s.x2 - s.x1) + (py - s.y1) * (s.y2 - s.y1)

/-- The `lenSq` of `distPointToSeg`: `C*C + D*D || 1`. -/
def distLenSq (s : LineSeg) : ℚ :=
  jsOr1 ((s.x2 - s.x1) * (s.x2 - s.x1) + (s.y2 - s.y1) * (s.y2 - s.y1))

/-- The `t` of `distPointToSeg`: the projection parameter clamped to `[0,1]`. -/
def tParam (px py : ℚ) (s : LineSeg) : ℚ :=
  max 0 (min 1 (distDot px py s / distLenSq s))

/-- Mirrors `distPointToSeg` from types.ts; `Math.hypot(dx,dy)` is the square
root of `dx^2 + dy^2`. -/
noncomputable def distPointToSeg (px py : ℚ) (s : LineSeg) : ℝ :=
  let t := tParam px py s
  let ex := s.x1 + t * (s.x2 - s.x1)
  let ey := s.y1 + t * (s.y2 - s.y1)
  Real.sqrt (((px - ex : ℚ) : ℝ) ^ 2 + ((py - ey : ℚ) : ℝ) ^ 2)

/-- Mirrors `clamp(v, min, max) = Math.max(min, Math.min(max, v))` from types.ts. -/
def clamp (v mn mx : ℚ) : ℚ := max mn (min mx v)

/-- The candidate grid points visited by the nested loops of
`placeNoteAuto`, in the iteration order of the source: `ci` (columns) in
the outer loop, `ri` (rows) in the inner loop. -/
def gridCandidates (o : NotePlacementOptions) : List (ℚ × ℚ) :=
  (List.range o.cols).flatMap fun ci : ℕ =>
    (List.range o.rows).map fun ri : ℕ =>
      (o.plotX1 + (((ci : ℚ) + 1 / 2) / (o.cols : ℚ)) * (o.plotX2 - o.plotX1),
       o.plotY1 + (((ri : ℚ) + 1 / 2) / (o.rows : ℚ)) * (o.plotY2 - o.plotY1))

/-- The inner distance loop of `placeNoteAuto`: `minDist` starts at
`Number.POSITIVE_INFINITY` (the top of `EReal`) and is lowered by every
strictly closer segment. -/
noncomputable def minDistTo (segs : List LineSeg) (gx gy : ℚ) : EReal :=
  segs.foldl
    (fun m s =>
      if ((distPointToSeg gx gy s : ℝ) : EReal) < m
      then ((distPointToSeg gx gy s : ℝ) : EReal) else m) ⊤

/-- The biased score of one candidate: the minimum distance times
`forecastBias` when `gx >= splitX`, times `1` otherwise. -/
noncomputable def candScore (segs : List LineSeg) (o : NotePlacementOptions)
    (c : ℚ × ℚ) : EReal :=
  minDistTo segs c.1 c.2 *
    (((if o.xOfIndex o.predictStartIndex ≤ c.1 then o.forecastBias else 1 : ℚ) : ℝ) : EReal)

/-- One step of the candidate search of `placeNoteAuto`: keep the current
best and replace it only on a strictly greater score
(`!best || score > best.score`). -/
noncomputable def noteBestStep (segs : List LineSeg) (o : NotePlacementOptions) :
    Option ((ℚ × ℚ) × EReal) → (ℚ × ℚ) → Option ((ℚ × ℚ) × EReal) :=
  fun best c =>
    match best with
    | none => some (c, candScore segs o c)
    | some b => if b.2 < candScore segs o c then some (c, candScore segs o c) else some b

/-- The candidate search loop of `placeNoteAuto`. -/
noncomputable def noteBestCand (segs : List LineSeg) (o : NotePlacementOptions) :
    Option ((ℚ × ℚ) × EReal) :=
  (gridCandidates o).foldl (noteBestStep segs o) none

/-- Segment aggregation of `placeNoteAuto` (lines 120-125): actual, then
predicted, then every historical series. -/
def collectAllSegs (actual predicted : Series) (historical : List Series)
    (o : NotePlacementOptions) : List LineSeg :=
  collectSegmentsFromSeries actual o.xOfIndex o.yOfValue ++
    collectSegmentsFromSeries predicted o.xOfIndex o.yOfValue ++
    historical.flatMap fun h => collectSegmentsFromSeries h o.xOfIndex o.yOfValue

/-- Tail of `placeNoteAuto` after the candidate search (lines 151-168):
anchor below-right of the base point, clamp with the inset, then the
three sequential edge tests choosing the arrow side. -/
def placeFrom (o : NotePlacementOptions) (baseX baseY : ℚ) : PlacementResult :=
  let left := clamp (baseX + 8) (o.plotX1 + o.inset) (o.plotX2 - o.inset - o.noteWidth)
  let top := clamp (baseY - o.noteHeight - 8) (o.plotY1 + o.inset)
    (o.plotY2 - o.inset - o.noteHeight)
  let margin := o.inset + 4
  let a1 := if top ≤ o.plotY1 + margin then ArrowSide.bottom else ArrowSide.top
  let a2 := if left ≤ o.plotX1 + margin then ArrowSide.right else a1
  let a3 := if o.plotX2 - o.noteWidth - margin ≤ left then ArrowSide.left else a2
  ⟨left, top, a3⟩

/-- Mirrors `placeNoteAuto` from types.ts.  `labelsLength` is received and unused,
as in the source. -/
noncomputable def placeNoteAuto (actual predicted : Series) (historical : List Series)
    (labelsLength : ℕ) (o : NotePlacementOptions) : PlacementResult :=
  let segs := collectAllSegs actual predicted historical o
  let baseX :=
    match noteBestCand segs o with
    | some b => b.1.1
    | none => (o.plotX1 + o.plotX2) / 2
  let baseY :=
    match noteBestCand segs o with
    | some b => b.1.2
    | none => (o.plotY1 + o.plotY2) / 2
  placeFrom o baseX baseY

/-- The `easeOutCubic` of the reveal animation (part_020 line 232). -/
def ease (t : ℚ) : ℚ := 1 - (1 - t) ^ 3

/-- The reveal boundary pixel as a function of elapsed time (part_020
lines 233-237): `px = plotX1 + (plotX2 - plotX1) * ease(min(1, e/totalMs))`. -/
def revealBoundary (plotX1 plotX2 totalMs elapsed : ℚ) : ℚ :=
  plotX1 + (plotX2 - plotX1) * ease (min 1 (elapsed / totalMs))

/-- The `splitX` of the animated chart (part_020 line 250): the x pixel of
`lastActualIndex` when it exists, of `predictStartIndex` otherwise. -/
def splitXOf (actual : Series) (predictStartIndex n : ℕ) (x : ℕ → ℚ) : ℚ :=
  match lastActualIndex actual predictStartIndex n with
  | some i => x i
  | none => x predictStartIndex

/-- Mirrors `predClipWidth` (part_020 line 252). -/
def predClipWidth (progressX splitX plotX2 : ℚ) : ℚ :=
  max 0 (min (progressX - splitX) (plotX2 - splitX))

structure ClipRect where
  x : ℚ
  y : ℚ
  w : ℚ
  h : ℚ
deriving DecidableEq, Repr

/-- The rect of the forecast clip path `clipPredId` (part_020 lines
316-318, using lines 250-252). -/
def forecastClipRect (actual : Series) (predictStartIndex n : ℕ) (x : ℕ → ℚ)
    (progressX plotY1 plotY2 plotX2 : ℚ) : ClipRect :=
  ⟨splitXOf actual predictStartIndex n x, plotY1,
    predClipWidth progressX (splitXOf actual predictStartIndex n x) plotX2,
    plotY2 - plotY1⟩

/-- Modelled from the spec: the claimed row-major candidate order of the
placement engine ("all candidates of the first row, left to right, before
any of the second row"), used only to compare against the source's
column-major order.  Everything except the enumeration order is as in
`placeNoteAuto`. -/
def gridCandidatesRowMajor (o : NotePlacementOptions) : List (ℚ × ℚ) :=
  (List.range o.rows).flatMap fun ri : ℕ =>
    (List.range o.cols).map fun ci : ℕ =>
      (o.plotX1 + (((ci : ℚ) + 1 / 2) / (o.cols : ℚ)) * (o.plotX2 - o.plotX1),
       o.plotY1 + (((ri : ℚ) + 1 / 2) / (o.rows : ℚ)) * (o.plotY2 - o.plotY1))

/-- Modelled from the spec: `placeNoteAuto` with the row-major candidate
order the spec claims. -/
noncomputable def placeNoteAutoRowMajor (actual predicted : Series)
    (historical : List Series) (labelsLength : ℕ) (o : NotePlacementOptions) :
    PlacementResult :=
  let segs := collectAllSegs actual predicted historical o
  let best := (gridCandidatesRowMajor o).foldl (noteBestStep segs o) none
  let baseX :=
    match best with
    | some b => b.1.1
    | none => (o.plotX1 + o.plotX2) / 2
  let baseY :=
    match best with
    | some b => b.1.2
    | none => (o.plotY1 + o.plotY2) / 2
  placeFrom o baseX baseY

/-- Concrete options: plot `[0,800]×[0,400]`, the source's default grid
`8×4`, note `320×76`, inset 8; `splitX = 1000` keeps the bias off every
candidate. -/
def oScnA : NotePlacementOptions :=
  ⟨0, 0, 800, 400, 0, fun _ => 1000, id, 8, 4, 11 / 10, 320, 76, 8⟩

/-- Concrete options: plot `[0,400]×[0,100]`, a `50×1` grid and a narrow
10-px note, so the winning candidate sits 4 px from the left edge. -/
def oScnB : NotePlacementOptions :=
  ⟨0, 0, 400, 100, 0, fun _ => 1000, id, 50, 1, 11 / 10, 10, 76, 8⟩

/-- Concrete x-scale placing indices 0-1 at 200 px, 2-4 at 600 px and the
predict start (index 5) at 1000 px. -/
def xScnC : ℕ → ℚ := fun i => if i < 2 then 200 else if i < 5 then 600 else 1000

/-- Concrete options: plot `[0,800]×[0,400]` with a `2×2` grid. -/
def oScnC : NotePlacementOptions :=
  ⟨0, 0, 800, 400, 5, xScnC, id, 2, 2, 11 / 10, 320, 76, 8⟩

/-- Concrete actual series: two defined runs of two equal points each
(at 200 px and at 600 px), separated by a gap. -/
def actualScnC : Series :=
  [some (JNum.fin 100), some (JNum.fin 100), none,
    some (JNum.fin 300), some (JNum.fin 300)]

theorem niceStep_pos (r : ℚ) : 0 < niceStep r := by
  have hp : (0 : ℚ) < (10 : ℚ) ^ (Int.log 10 |r|) := zpow_pos (by norm_num) _
  simp only [niceStep]
  split_ifs <;> nlinarith [hp]

/-- C3: for finite `mn ≤ mx` and tick hint `k ≥ 1`, `niceDomain` returns
a pair `(lo, hi)` with `lo ≤ mn` and `mx ≤ hi`; when `mn = mx` it returns
exactly `(mn - 1, mx + 1)`. -/
theorem niceDomain_contains (mn mx k : ℚ) (hle : mn ≤ mx) (hk : 1 ≤ k) :
    (niceDomain mn mx k).1 ≤ mn ∧ mx ≤ (niceDomain mn mx k).2 ∧
      (mn = mx → niceDomain mn mx k = (mn - 1, mx + 1)) := by
  by_cases h : mn = mx
  · subst h
    simp [niceDomain]
  · have hstep : 0 < niceStep ((mx - mn) / max 1 k) := niceStep_pos _
    have hne : niceStep ((mx - mn) / max 1 k) ≠ 0 := ne_of_gt hstep
    refine ⟨?_, ?_, fun hc => absurd hc h⟩
    · have h1 : (⌊mn / niceStep ((mx - mn) / max 1 k)⌋ : ℚ) *
          niceStep ((mx - mn) / max 1 k) ≤
          (mn / niceStep ((mx - mn) / max 1 k)) * niceStep ((mx - mn) / max 1 k) :=
        mul_le_mul_of_nonneg_right (Int.floor_le _) hstep.le
      rw [div_mul_cancel₀ _ hne] at h1
      simpa [niceDomain, h] using h1
    · have h1 : (mx / niceStep ((mx - mn) / max 1 k)) * niceStep ((mx - mn) / max 1 k) ≤
          (⌈mx / niceStep ((mx - mn) / max 1 k)⌉ : ℚ) * niceStep ((mx - mn) / max 1 k) :=
        mul_le_mul_of_nonneg_right (Int.le_ceil _) hstep.le
      rw [div_mul_cancel₀ _ hne] at h1
      simpa [niceDomain, h] using h1

/-- Witness for C3 at `mn = 0`, `mx = 10`, `k = 4`. -/
theorem niceDomain_contains_witness :
    (niceDomain 0 10 4).1 ≤ 0 ∧ (10 : ℚ) ≤ (niceDomain 0 10 4).2 ∧
      ((0 : ℚ) = 10 → niceDomain 0 10 4 = (0 - 1, 10 + 1)) :=
  niceDomain_contains 0 10 4 (by norm_num) (by norm_num)

theorem lastActualIdxAux_eq_some (actual : Series) (i : ℕ) :
    ∀ m, i < m → (finVal? (actual.getD i none)).isSome →
      (∀ j, i < j → j < m → finVal? (actual.getD j none) = none) →
      lastActualIdxAux actual m = some i := by
  intro m
  induction m with
  | zero => omega
  | succ m ih =>
    intro him hv hmax
    by_cases h : i = m
    · subst h
      simp only [lastActualIdxAux, hv, if_true]
    · have hm : finVal? (actual.getD m none) = none := hmax m (by omega) (by omega)
      simp only [lastActualIdxAux, hm, Option.isSome_none, Bool.false_eq_true,
        if_false]
      exact ih (by omega) hv fun j hj1 hj2 => hmax j hj1 (by omega)

/-- C1: continuity stitching.  When `i` is the greatest index below
`predictStartIndex` at which `actual` holds a defined finite value `v`,
the code indeed selects `lastActualIndex = i`; if `predicted` is absent
there, the series built for drawing holds `v` at `i` and agrees with the
input `predicted` at every other index; an already-present value at `i`
is never overwritten (the input list itself is immutable in this model,
and the result is a fresh `List.set` copy, as in the source's spread). -/
theorem buildPredictedWithAnchor_spec (actual predicted : Series) (psi n i : ℕ)
    (v : ℚ) (hplen : predicted.length = n) (hpsi : psi ≤ n) (hi : i < psi)
    (hv : finVal? (actual.getD i none) = some v)
    (hmax : ∀ j, i < j → j < psi → finVal? (actual.getD j none) = none) :
    lastActualIndex actual psi n = some i ∧
    (predicted.getD i none = none →
      (buildPredictedWithAnchor true actual predicted psi n).getD i none
          = some (JNum.fin v) ∧
      ∀ j, j ≠ i →
        (buildPredictedWithAnchor true actual predicted psi n).getD j none
            = predicted.getD j none) ∧
    (predicted.getD i none ≠ none →
      buildPredictedWithAnchor true actual predicted psi n = predicted) := by
  have hmin : min psi n = psi := min_eq_left hpsi
  have hlai : lastActualIndex actual psi n = some i := by
    unfold lastActualIndex
    rw [hmin]
    exact lastActualIdxAux_eq_some actual i psi hi (by rw [hv]; rfl) hmax
  have hlav : lastActualValue actual psi n = some v := by
    unfold lastActualValue
    rw [hlai]
    exact hv
  refine ⟨hlai, ?_, ?_⟩
  · intro habs
    have hbp : buildPredictedWithAnchor true actual predicted psi n
        = predicted.set i (some (JNum.fin v)) := by
      unfold buildPredictedWithAnchor
      rw [hlai, hlav]
      exact if_pos habs
    have hilen : i < predicted.length := by omega
    constructor
    · rw [hbp]
      simp [List.getD_eq_getElem?_getD, List.getElem?_set_self hilen]
    · intro j hj
      rw [hbp]
      simp [List.getD_eq_getElem?_getD, List.getElem?_set_ne (fun h => hj h.symm)]
  · intro habs
    unfold buildPredictedWithAnchor
    rw [hlai, hlav]
    exact if_neg habs

/-- Witness for C1: the spec's concrete example `actual = [100,102,null,null]`,
`predicted = [null,null,null,110]`, `predictStartIndex = 2`: the stitched
series holds 102 at index 1 and keeps 110 at index 3. -/
theorem buildPredictedWithAnchor_spec_witness :
    (buildPredictedWithAnchor true
        [some (JNum.fin 100), some (JNum.fin 102), none, none]
        [none, none, none, some (JNum.fin 110)] 2 4).getD 1 none
      = some (JNum.fin 102) ∧
    (buildPredictedWithAnchor true
        [some (JNum.fin 100), some (JNum.fin 102), none, none]
        [none, none, none, some (JNum.fin 110)] 2 4).getD 3 none
      = some (JNum.fin 110) := by
  have h := buildPredictedWithAnchor_spec
    [some (JNum.fin 100), some (JNum.fin 102), none, none]
    [none, none, none, some (JNum.fin 110)] 2 4 1 102
    (by decide) (by decide) (by decide) (by decide)
    (fun j hj1 hj2 => absurd (by omega : j < j) (lt_irrefl j))
  refine ⟨(h.2.1 (by decide)).1, ?_⟩
  have h3 := (h.2.1 (by decide)).2 3 (by decide)
  rw [h3]
  decide

theorem buildSubpathsAux_eq_map (xOf : ℕ → ℚ) (yOf : ℚ → ℚ) :
    ∀ (s : Series) (i : ℕ) (curr : List (ℕ × ℚ)),
      buildSubpathsAux xOf yOf i (curr.map fun p => (xOf p.1, yOf p.2)) s
        = (buildRunsAux i curr s).map (List.map fun p => (xOf p.1, yOf p.2)) := by
  intro s
  induction s with
  | nil =>
    intro i curr
    simp only [buildSubpathsAux, buildRunsAux, List.length_map]
    by_cases h : 1 < curr.length
    · simp [h]
    · simp [h]
  | cons v rest ih =>
    intro i curr
    cases hv : finVal? v with
    | none =>
      have hih := ih (i + 1) []
      simp only [List.map_nil] at hih
      simp only [buildSubpathsAux, buildRunsAux, hv, List.length_map,
        List.map_append, hih]
      by_cases h : 1 < curr.length
      · simp [h]
      · simp [h]
    | some q =>
      simp only [buildSubpathsAux, buildRunsAux, hv]
      have hmap : (curr.map fun p => (xOf p.1, yOf p.2)) ++ [(xOf i, yOf q)]
          = (curr ++ [(i, q)]).map fun p => (xOf p.1, yOf p.2) := by
        simp
      rw [hmap]
      exact ih (i + 1) (curr ++ [(i, q)])

theorem buildRunsAux_mem (P : ℕ × ℚ → Prop) :
    ∀ (s : Series) (i : ℕ) (curr : List (ℕ × ℚ)),
      List.Chain' (fun a b => b.1 = a.1 + 1) curr →
      (∀ p, curr.getLast? = some p → p.1 + 1 = i) →
      (∀ p ∈ curr, P p) →
      (∀ k q, finVal? (s.getD k none) = some q → P (i + k, q)) →
      ∀ run ∈ buildRunsAux i curr s,
        1 < run.length ∧ List.Chain' (fun a b => b.1 = a.1 + 1) run ∧
          ∀ p ∈ run, P p := by
  intro s
  induction s with
  | nil =>
    intro i curr hchain hlast hP hPs run hrun
    simp only [buildRunsAux] at hrun
    by_cases h : 1 < curr.length
    · rw [if_pos h] at hrun
      rw [List.mem_singleton] at hrun
      subst hrun
      exact ⟨h, hchain, hP⟩
    · rw [if_neg h] at hrun
      exact absurd hrun (List.not_mem_nil run)
  | cons v rest ih =>
    intro i curr hchain hlast hP hPs run hrun
    cases hv : finVal? v with
    | none =>
      simp only [buildRunsAux, hv] at hrun
      rw [List.mem_append] at hrun
      rcases hrun with hrun | hrun
      · by_cases h : 1 < curr.length
        · rw [if_pos h, List.mem_singleton] at hrun
          subst hrun
          exact ⟨h, hchain, hP⟩
        · rw [if_neg h] at hrun
          exact absurd hrun (List.not_mem_nil run)
      · refine ih (i + 1) [] List.chain'_nil (by simp) (by simp) ?_ run hrun
        intro k q hk
        have h1 : finVal? ((v :: rest).getD (k + 1) none) = some q := by
          rwa [List.getD_cons_succ]
        have h2 := hPs (k + 1) q h1
        have h3 : i + (k + 1) = i + 1 + k := by omega
        rwa [h3] at h2
    | some q =>
      simp only [buildRunsAux, hv] at hrun
      have hQi : P (i, q) := by
        have h0 : finVal? ((v :: rest).getD 0 none) = some q := by
          rwa [List.getD_cons_zero]
        have := hPs 0 q h0
        rwa [Nat.add_zero] at this
      refine ih (i + 1) (curr ++ [(i, q)]) ?_ ?_ ?_ ?_ run hrun
      · rw [List.chain'_append]
        refine ⟨hchain, List.chain'_singleton _, ?_⟩
        intro x hx y hy
        simp only [List.head?_cons, Option.mem_def, Option.some.injEq] at hy
        subst hy
        exact (hlast x hx).symm
      · intro p hp
        rw [List.getLast?_concat] at hp
        cases hp
        rfl
      · intro p hp
        rw [List.mem_append, List.mem_singleton] at hp
        rcases hp with hp | hp
        · exact hP p hp
        · subst hp
          exact hQi
      · intro k q' hk
        have h1 : finVal? ((v :: rest).getD (k + 1) none) = some q' := by
          rwa [List.getD_cons_succ]
        have h2 := hPs (k + 1) q' h1
        have h3 : i + (k + 1) = i + 1 + k := by omega
        rwa [h3] at h2

theorem collectSegsAux_mem (xOf : ℕ → ℚ) (yOf : ℚ → ℚ) (Q : ℕ → ℚ → Prop) :
    ∀ (s : Series) (i : ℕ) (prev : Option (ℚ × ℚ)),
      (∀ p, prev = some p → ∃ j w, Q j w ∧ p = (xOf j, yOf w) ∧ j + 1 = i) →
      (∀ k q, finVal? (s.getD k none) = some q → Q (i + k) q) →
      ∀ seg ∈ collectSegsAux xOf yOf i prev s,
        ∃ j v w, Q j v ∧ Q (j + 1) w ∧
          seg = ⟨xOf j, yOf v, xOf (j + 1), yOf w⟩ := by
  intro s
  induction s with
  | nil =>
    intro i prev hprev hQ seg hseg
    simp only [collectSegsAux] at hseg
    exact absurd hseg (List.not_mem_nil seg)
  | cons v rest ih =>
    intro i prev hprev hQ seg hseg
    have hshift : ∀ k q, finVal? (rest.getD k none) = some q → Q (i + 1 + k) q := by
      intro k q hk
      have h1 : finVal? ((v :: rest).getD (k + 1) none) = some q := by
        rwa [List.getD_cons_succ]
      have h2 := hQ (k + 1) q h1
      have h3 : i + (k + 1) = i + 1 + k := by omega
      rwa [h3] at h2
    cases hv : finVal? v with
    | none =>
      simp only [collectSegsAux, hv] at hseg
      exact ih (i + 1) none (by simp) hshift seg hseg
    | some q =>
      have hQi : Q i q := by
        have h0 : finVal? ((v :: rest).getD 0 none) = some q := by
          rwa [List.getD_cons_zero]
        have := hQ 0 q h0
        rwa [Nat.add_zero] at this
      have hprev' : ∀ p, some (xOf i, yOf q) = some p →
          ∃ j w, Q j w ∧ p = (xOf j, yOf w) ∧ j + 1 = i + 1 := by
        intro p hp
        cases hp
        exact ⟨i, q, hQi, rfl, rfl⟩
      cases prev with
      | none =>
        simp only [collectSegsAux, hv] at hseg
        exact ih (i + 1) (some (xOf i, yOf q)) hprev' hshift seg hseg
      | some pr =>
        simp only [collectSegsAux, hv] at hseg
        rw [List.mem_cons] at hseg
        rcases hseg with hseg | hseg
        · obtain ⟨j, w, hQj, hpr, hji⟩ := hprev pr rfl
          subst hseg
          refine ⟨j, w, q, hQj, ?_, ?_⟩
          · rw [hji]
            exact hQi
          · rw [hpr, hji]
        · exact ih (i + 1) (some (xOf i, yOf q)) hprev' hshift seg hseg

/-- C2: gap-aware segmentation.  Every run kept by the LineSeries
splitting has at least two points, consists of consecutive indices, and
only of indices where the series holds a defined finite value (so no run
contains, or bridges across, an absent or non-finite index); the drawn
sub-polylines are exactly those runs mapped through the pixel scales; and
every segment collected by the placement engine joins two consecutive
defined finite indices (the same splitting rule). -/
theorem renderer_gap_splitting (s : Series) (xOf : ℕ → ℚ) (yOf : ℚ → ℚ) :
    (∀ run ∈ buildRunsIdx s, 1 < run.length ∧
        List.Chain' (fun a b => b.1 = a.1 + 1) run ∧
        ∀ p ∈ run, finVal? (s.getD p.1 none) = some p.2) ∧
    buildSubpaths s xOf yOf
        = (buildRunsIdx s).map (List.map fun p => (xOf p.1, yOf p.2)) ∧
    ∀ seg ∈ collectSegmentsFromSeries s xOf yOf, ∃ j v w,
        finVal? (s.getD j none) = some v ∧
        finVal? (s.getD (j + 1) none) = some w ∧
        seg = ⟨xOf j, yOf v, xOf (j + 1), yOf w⟩ := by
  refine ⟨?_, ?_, ?_⟩
  · intro run hrun
    refine buildRunsAux_mem (fun p => finVal? (s.getD p.1 none) = some p.2) s 0 []
      List.chain'_nil (by simp) (by simp) ?_ run hrun
    intro k q hk
    rwa [Nat.zero_add]
  · have h := buildSubpathsAux_eq_map xOf yOf s 0 []
    simpa [buildSubpaths, buildRunsIdx] using h
  · intro seg hseg
    exact collectSegsAux_mem xOf yOf (fun j w => finVal? (s.getD j none) = some w)
      s 0 none (by simp) (fun k q hk => by rwa [Nat.zero_add]) seg hseg

/-- Witness for C2 at the series `[1, 2, gap, 3]` with `xOf i = i`,
`yOf v = v`: the kept run `[(0,1),(1,2)]` and the collected segment
`(0,1)-(1,2)`. -/
theorem renderer_gap_splitting_witness :
    (1 < ([((0 : ℕ), (1 : ℚ)), (1, 2)]).length ∧
      List.Chain' (fun a b => b.1 = a.1 + 1) [((0 : ℕ), (1 : ℚ)), (1, 2)] ∧
      ∀ p ∈ [((0 : ℕ), (1 : ℚ)), (1, 2)],
        finVal? (([some (JNum.fin 1), some (JNum.fin 2), none,
          some (JNum.fin 3)] : Series).getD p.1 none) = some p.2) ∧
    ∃ j v w,
      finVal? (([some (JNum.fin 1), some (JNum.fin 2), none,
        some (JNum.fin 3)] : Series).getD j none) = some v ∧
      finVal? (([some (JNum.fin 1), some (JNum.fin 2), none,
        some (JNum.fin 3)] : Series).getD (j + 1) none) = some w ∧
      (⟨0, 1, 1, 2⟩ : LineSeg)
        = ⟨(fun i : ℕ => (i : ℚ)) j, (fun v : ℚ => v) v,
            (fun i : ℕ => (i : ℚ)) (j + 1), (fun v : ℚ => v) w⟩ := by
  have h := renderer_gap_splitting
    [some (JNum.fin 1), some (JNum.fin 2), none, some (JNum.fin 3)]
    (fun i : ℕ => (i : ℚ)) (fun v : ℚ => v)
  refine ⟨h.1 [((0 : ℕ), (1 : ℚ)), (1, 2)] ?_, h.2.2 ⟨0, 1, 1, 2⟩ ?_⟩
  · show _ ∈ buildRunsIdx _
    decide
  · show _ ∈ collectSegmentsFromSeries _ _ _
    decide

theorem ease_mono (t1 t2 : ℚ) (h : t1 ≤ t2) : ease t1 ≤ ease t2 := by
  unfold ease
  nlinarith [sq_nonneg ((1 - t1) + (1 - t2)), sq_nonneg (1 - t1), sq_nonneg (1 - t2)]

/-- C8: with animation enabled, the reveal boundary
`e ↦ plotX1 + (plotX2 - plotX1) * ease(min 1 (e / totalMs))` is
monotonically non-decreasing in the elapsed time, and for every
`e ≥ totalMs` the eased progress is exactly 1 and the boundary is exactly
`plotX2`. -/
theorem revealBoundary_mono_complete (pX1 pX2 totalMs : ℚ)
    (hplot : pX1 ≤ pX2) (hdur : 0 < totalMs) :
    (∀ e1 e2, e1 ≤ e2 →
      revealBoundary pX1 pX2 totalMs e1 ≤ revealBoundary pX1 pX2 totalMs e2) ∧
    (∀ e, totalMs ≤ e →
      min 1 (e / totalMs) = 1 ∧ revealBoundary pX1 pX2 totalMs e = pX2) := by
  constructor
  · intro e1 e2 he
    unfold revealBoundary
    have hdiv : e1 / totalMs ≤ e2 / totalMs := by gcongr
    have hmin : min 1 (e1 / totalMs) ≤ min 1 (e2 / totalMs) :=
      min_le_min le_rfl hdiv
    have heased := ease_mono _ _ hmin
    have hw : (0 : ℚ) ≤ pX2 - pX1 := sub_nonneg.2 hplot
    nlinarith [mul_le_mul_of_nonneg_left heased hw]
  · intro e he
    have h1 : (1 : ℚ) ≤ e / totalMs := (one_le_div hdur).2 he
    have hmin : min 1 (e / totalMs) = 1 := min_eq_left h1
    refine ⟨hmin, ?_⟩
    unfold revealBoundary
    rw [hmin]
    norm_num [ease]

/-- Witness for C8: plot `[0,10]`, duration 2; the boundary at `e = 1` is
below the boundary at `e = 3`, and at `e = 5` it is exactly 10. -/
theorem revealBoundary_mono_complete_witness :
    revealBoundary 0 10 2 1 ≤ revealBoundary 0 10 2 3 ∧
      revealBoundary 0 10 2 5 = 10 := by
  have h := revealBoundary_mono_complete 0 10 2 (by norm_num) (by norm_num)
  exact ⟨h.1 1 3 (by norm_num), (h.2 5 (by norm_num)).2⟩

/-- C10: `distPointToSeg` is total.  For a zero-length segment the
`|| 1` guard makes the divisor 1, the clamped projection parameter is 0,
and the distance is the Euclidean distance to the endpoint `(x1, y1)`;
the result is non-negative in every case. -/
theorem distPointToSeg_total (px py : ℚ) (s : LineSeg) :
    (s.x1 = s.x2 → s.y1 = s.y2 →
      distLenSq s = 1 ∧ tParam px py s = 0 ∧
      distPointToSeg px py s
        = Real.sqrt (((px - s.x1 : ℚ) : ℝ) ^ 2 + ((py - s.y1 : ℚ) : ℝ) ^ 2)) ∧
    0 ≤ distPointToSeg px py s := by
  constructor
  · intro hx hy
    have hC : s.x2 - s.x1 = 0 := sub_eq_zero.2 hx.symm
    have hD : s.y2 - s.y1 = 0 := sub_eq_zero.2 hy.symm
    have hlen : distLenSq s = 1 := by
      simp [distLenSq, hC, hD, jsOr1]
    have hdot : distDot px py s = 0 := by
      unfold distDot
      rw [hC, hD]
      ring
    have ht : tParam px py s = 0 := by
      simp [tParam, hdot, hlen]
    refine ⟨hlen, ht, ?_⟩
    simp only [distPointToSeg, ht]
    norm_num
  · exact Real.sqrt_nonneg _

/-- Witness for C10 at the zero-length segment `(1,2)-(1,2)` and the
point `(4,6)`. -/
theorem distPointToSeg_total_witness :
    distPointToSeg 4 6 ⟨1, 2, 1, 2⟩
      = Real.sqrt (((4 - 1 : ℚ) : ℝ) ^ 2 + ((6 - 2 : ℚ) : ℝ) ^ 2) ∧
      0 ≤ distPointToSeg 4 6 ⟨1, 2, 1, 2⟩ := by
  have h := distPointToSeg_total 4 6 ⟨1, 2, 1, 2⟩
  exact ⟨(h.1 rfl rfl).2.2, h.2⟩

/-- C9: placement determinism.  `placeNoteAuto` is a pure function of its
arguments: two calls with identical series, labels length and options
return identical `{left, top, arrowSide}`. -/
theorem placeNoteAuto_deterministic (a1 a2 p1 p2 : Series) (hs1 hs2 : List Series)
    (L1 L2 : ℕ) (o1 o2 : NotePlacementOptions) (ha : a1 = a2) (hp : p1 = p2)
    (hh : hs1 = hs2) (hL : L1 = L2) (ho : o1 = o2) :
    placeNoteAuto a1 p1 hs1 L1 o1 = placeNoteAuto a2 p2 hs2 L2 o2 := by
  subst ha hp hh hL ho
  rfl

/-- Witness for C9 at a concrete repeated call. -/
theorem placeNoteAuto_deterministic_witness :
    placeNoteAuto [] [] [] 0
        ⟨0, 0, 100, 100, 0, fun _ => 0, id, 1, 1, 11 / 10, 320, 76, 8⟩
      = placeNoteAuto [] [] [] 0
        ⟨0, 0, 100, 100, 0, fun _ => 0, id, 1, 1, 11 / 10, 320, 76, 8⟩ :=
  placeNoteAuto_deterministic _ _ _ _ _ _ _ _ _ _ rfl rfl rfl rfl rfl

/-- C7 amended: the forecast clip rectangle's left edge is the pixel x of
`lastActualIndex` whenever the actual series has a defined finite value
before `predictStartIndex`, and the pixel x of `predictStartIndex` only
when it has none; horizontally the rectangle spans exactly
`[splitX, max(splitX, min(progressX, plotX2))]`. -/
theorem forecastClipRect_spec (actual : Series) (psi n : ℕ) (x : ℕ → ℚ)
    (progressX pY1 pY2 pX2 : ℚ) :
    (forecastClipRect actual psi n x progressX pY1 pY2 pX2).x
        = splitXOf actual psi n x ∧
    (∀ i, lastActualIndex actual psi n = some i →
      (forecastClipRect actual psi n x progressX pY1 pY2 pX2).x = x i) ∧
    (lastActualIndex actual psi n = none →
      (forecastClipRect actual psi n x progressX pY1 pY2 pX2).x = x psi) ∧
    (forecastClipRect actual psi n x progressX pY1 pY2 pX2).x
        + (forecastClipRect actual psi n x progressX pY1 pY2 pX2).w
      = max (splitXOf actual psi n x) (min progressX pX2) := by
  refine ⟨rfl, ?_, ?_, ?_⟩
  · intro i hi
    show splitXOf actual psi n x = x i
    unfold splitXOf
    rw [hi]
  · intro hi
    show splitXOf actual psi n x = x psi
    unfold splitXOf
    rw [hi]
  · show splitXOf actual psi n x
        + predClipWidth progressX (splitXOf actual psi n x) pX2 = _
    unfold predClipWidth
    rcases le_total progressX pX2 with h | h
    · rw [min_eq_left h, min_eq_left (by linarith :
        progressX - splitXOf actual psi n x ≤ pX2 - splitXOf actual psi n x)]
      rcases le_total 0 (progressX - splitXOf actual psi n x) with h2 | h2
      · rw [max_eq_right h2, max_eq_right (by linarith :
          splitXOf actual psi n x ≤ progressX)]
        ring
      · rw [max_eq_left (by linarith), max_eq_left (by linarith :
          progressX ≤ splitXOf actual psi n x)]
        ring
    · rw [min_eq_right h, min_eq_right (by linarith :
        pX2 - splitXOf actual psi n x ≤ progressX - splitXOf actual psi n x)]
      rcases le_total 0 (pX2 - splitXOf actual psi n x) with h2 | h2
      · rw [max_eq_right h2, max_eq_right (by linarith :
          splitXOf actual psi n x ≤ pX2)]
        ring
      · rw [max_eq_left (by linarith), max_eq_left (by linarith :
          pX2 ≤ splitXOf actual psi n x)]
        ring

/-- C7 counterexample: `actual = [1, null]`, `predictStartIndex = 1`, the
chart x-scale `createLinear [0,1] [0,100]`: the forecast clip rectangle's
left edge is `x(lastActualIndex) = x 0 = 0`, not
`x(predictStartIndex) = x 1 = 100`, although the actual series has a
defined value at the earlier index 0. -/
theorem forecastClipRect_left_ne_predictStart :
    (forecastClipRect [some (JNum.fin 1), none] 1 2
        (fun i => createLinear 0 1 0 100 (i : ℚ)) 50 0 50 100).x = 0 ∧
    (fun i : ℕ => createLinear 0 1 0 100 (i : ℚ)) 1 = 100 ∧
    (0 : ℚ) ≠ 100 := by
  refine ⟨?_, ?_, by norm_num⟩
  · show splitXOf [some (JNum.fin 1), none] 1 2
        (fun i => createLinear 0 1 0 100 (i : ℚ)) = 0
    have hlai : lastActualIndex [some (JNum.fin 1), none] 1 2 = some 0 := by decide
    unfold splitXOf
    rw [hlai]
    norm_num [createLinear, jsOr1]
  · show createLinear 0 1 0 100 ((1 : ℕ) : ℚ) = 100
    norm_num [createLinear, jsOr1]

/-- Witness for C7's amended statement at the counterexample's chart. -/
theorem forecastClipRect_spec_witness :
    (forecastClipRect [some (JNum.fin 1), none] 1 2
        (fun i => createLinear 0 1 0 100 (i : ℚ)) 50 0 50 100).x
      = (fun i : ℕ => createLinear 0 1 0 100 (i : ℚ)) 0 ∧
    (forecastClipRect [some (JNum.fin 1), none] 1 2
        (fun i => createLinear 0 1 0 100 (i : ℚ)) 50 0 50 100).x
        + (forecastClipRect [some (JNum.fin 1), none] 1 2
            (fun i => createLinear 0 1 0 100 (i : ℚ)) 50 0 50 100).w
      = max (splitXOf [some (JNum.fin 1), none] 1 2
          (fun i => createLinear 0 1 0 100 (i : ℚ))) (min 50 100) := by
  have h := forecastClipRect_spec [some (JNum.fin 1), none] 1 2
    (fun i => createLinear 0 1 0 100 (i : ℚ)) 50 0 50 100
  exact ⟨h.2.1 0 (by decide), h.2.2.2⟩

theorem minDistTo_nil (gx gy : ℚ) : minDistTo [] gx gy = ⊤ := rfl

theorem candScore_nil_top (o : NotePlacementOptions) (c : ℚ × ℚ)
    (hb : 0 < o.forecastBias) : candScore [] o c = ⊤ := by
  unfold candScore
  rw [minDistTo_nil]
  apply EReal.top_mul_of_pos
  rw [EReal.coe_pos, Rat.cast_pos]
  split_ifs
  · exact hb
  · norm_num

theorem noteBestStep_none (segs : List LineSeg) (o : NotePlacementOptions)
    (c : ℚ × ℚ) : noteBestStep segs o none c = some (c, candScore segs o c) := rfl

theorem noteBestStep_some (segs : List LineSeg) (o : NotePlacementOptions)
    (b : (ℚ × ℚ) × EReal) (c : ℚ × ℚ) :
    noteBestStep segs o (some b) c =
      if b.2 < candScore segs o c then some (c, candScore segs o c) else some b := rfl

theorem noteBestFold_stays (segs : List LineSeg) (o : NotePlacementOptions) :
    ∀ (l : List (ℚ × ℚ)) (b : (ℚ × ℚ) × EReal), b.2 = ⊤ →
      (∀ c ∈ l, candScore segs o c = ⊤) →
      l.foldl (noteBestStep segs o) (some b) = some b := by
  intro l
  induction l with
  | nil => intro b _ _; rfl
  | cons c l ih =>
    intro b hb hl
    have hc : candScore segs o c = ⊤ := hl c (List.mem_cons_self c l)
    rw [List.foldl_cons, noteBestStep_some, hc, hb, if_neg (lt_irrefl ⊤)]
    exact ih b hb fun x hx => hl x (List.mem_cons_of_mem c hx)

theorem noteBestCand_nil_segs (o : NotePlacementOptions) (hb : 0 < o.forecastBias)
    (c0 : ℚ × ℚ) (rest : List (ℚ × ℚ)) (hg : gridCandidates o = c0 :: rest) :
    noteBestCand [] o = some (c0, ⊤) := by
  unfold noteBestCand
  rw [hg, List.foldl_cons, noteBestStep_none, candScore_nil_top o c0 hb]
  exact noteBestFold_stays [] o rest (c0, ⊤) rfl
    fun c _ => candScore_nil_top o c hb

theorem gridCandidates_head (o : NotePlacementOptions) (ck rk : ℕ)
    (hc : o.cols = ck + 1) (hr : o.rows = rk + 1) :
    ∃ rest, gridCandidates o
      = (o.plotX1 + ((1 / 2 : ℚ) / (o.cols : ℚ)) * (o.plotX2 - o.plotX1),
         o.plotY1 + ((1 / 2 : ℚ) / (o.rows : ℚ)) * (o.plotY2 - o.plotY1)) :: rest := by
  unfold gridCandidates
  rw [hc, hr, List.range_succ_eq_map, List.range_succ_eq_map]
  rw [List.flatMap_cons, List.map_cons, List.cons_append, Nat.cast_zero, zero_add]
  exact ⟨_, rfl⟩

/-- C4 amended: with an empty segment list every candidate's biased score
is `+∞`, so the strict `score > best.score` test never replaces the first
candidate: the callout anchors at the first grid candidate (the top-left
cell centre), not at the plot centre; the plot-centre fallback applies
only when the candidate grid itself is empty (`cols = 0`).  The pointer
side then follows the clamping rules rather than being always up. -/
theorem placeNoteAuto_empty_segs (actual predicted : Series)
    (historical : List Series) (L : ℕ) (o : NotePlacementOptions)
    (hsegs : collectAllSegs actual predicted historical o = [])
    (hb : 0 < o.forecastBias) :
    (∀ ck rk, o.cols = ck + 1 → o.rows = rk + 1 →
      placeNoteAuto actual predicted historical L o
        = placeFrom o
            (o.plotX1 + ((1 / 2 : ℚ) / (o.cols : ℚ)) * (o.plotX2 - o.plotX1))
            (o.plotY1 + ((1 / 2 : ℚ) / (o.rows : ℚ)) * (o.plotY2 - o.plotY1))) ∧
    (o.cols = 0 →
      placeNoteAuto actual predicted historical L o
        = placeFrom o ((o.plotX1 + o.plotX2) / 2) ((o.plotY1 + o.plotY2) / 2)) := by
  constructor
  · intro ck rk hc hr
    obtain ⟨rest, hg⟩ := gridCandidates_head o ck rk hc hr
    have hbest := noteBestCand_nil_segs o hb _ rest hg
    simp only [placeNoteAuto]
    rw [hsegs, hbest]
  · intro hc
    have hg : gridCandidates o = [] := by
      unfold gridCandidates
      rw [hc]
      rfl
    have hbest : noteBestCand [] o = none := by
      unfold noteBestCand
      rw [hg]
      rfl
    simp only [placeNoteAuto]
    rw [hsegs, hbest]

/-- C4 counterexample: empty series, plot `[0,800]×[0,400]`, default grid
`8×4`: the code anchors at the first grid candidate `(50, 50)` and
returns `{left 58, top 8, arrow bottom}`; anchoring at the plot centre
`(400, 200)` with the up arrow side would return `{408, 116, top}`. -/
theorem placeNoteAuto_empty_not_center :
    placeNoteAuto [] [] [] 0 oScnA = ⟨58, 8, ArrowSide.bottom⟩ ∧
    placeFrom oScnA ((oScnA.plotX1 + oScnA.plotX2) / 2)
        ((oScnA.plotY1 + oScnA.plotY2) / 2) = ⟨408, 116, ArrowSide.top⟩ ∧
    (⟨58, 8, ArrowSide.bottom⟩ : PlacementResult) ≠ ⟨408, 116, ArrowSide.top⟩ := by
  refine ⟨?_, ?_, by simp⟩
  · obtain ⟨rest, hg⟩ := gridCandidates_head oScnA 7 3 rfl rfl
    have hbest := noteBestCand_nil_segs oScnA (by norm_num [oScnA]) _ rest hg
    simp only [placeNoteAuto]
    rw [show collectAllSegs [] [] [] oScnA = [] from rfl, hbest]
    show placeFrom oScnA _ _ = _
    norm_num [placeFrom, clamp, oScnA, min_def, max_def]
  · norm_num [placeFrom, clamp, oScnA, min_def, max_def]

/-- Witness for C4's amended statement: at the empty dataset with options
`oScnA` (nonempty `8×4` grid) the result anchors at the first candidate. -/
theorem placeNoteAuto_empty_segs_witness :
    placeNoteAuto [] [] [] 0 oScnA
      = placeFrom oScnA
          (oScnA.plotX1 + ((1 / 2 : ℚ) / (oScnA.cols : ℚ)) * (oScnA.plotX2 - oScnA.plotX1))
          (oScnA.plotY1 + ((1 / 2 : ℚ) / (oScnA.rows : ℚ)) * (oScnA.plotY2 - oScnA.plotY1)) :=
  (placeNoteAuto_empty_segs [] [] [] 0 oScnA rfl (by norm_num [oScnA])).1
    7 3 rfl rfl

/-- C5 amended: the three edge tests after clamping are sequential
overriding assignments, so the effective priority is reversed: a
right-edge hit makes the pointer face left; otherwise a left-edge hit
makes it face right; otherwise a top-edge hit makes it face down;
otherwise it faces up.  In particular, when both the top and the left
edge are hit the pointer faces right, not down. -/
theorem placeNoteAuto_arrow_priority (actual predicted : Series)
    (historical : List Series) (L : ℕ) (o : NotePlacementOptions) :
    (placeNoteAuto actual predicted historical L o).arrowSide =
      (if o.plotX2 - o.noteWidth - (o.inset + 4)
            ≤ (placeNoteAuto actual predicted historical L o).left
        then ArrowSide.left
        else if (placeNoteAuto actual predicted historical L o).left
            ≤ o.plotX1 + (o.inset + 4) then ArrowSide.right
        else if (placeNoteAuto actual predicted historical L o).top
            ≤ o.plotY1 + (o.inset + 4) then ArrowSide.bottom
        else ArrowSide.top) := by
  rfl

/-- C5 counterexample: empty series, plot `[0,400]×[0,100]`, a `50×1`
grid and a 10-px-wide note (options `oScnB`): the winning candidate is
`(4, 50)`, the clamped position is `(12, 8)`, both the top edge
(`8 ≤ 0 + 12`) and the left edge (`12 ≤ 0 + 12`) are hit, yet the arrow
side is `right`, not `bottom` (down). -/
theorem placeNoteAuto_top_left_hit_not_down :
    placeNoteAuto [] [] [] 0 oScnB = ⟨12, 8, ArrowSide.right⟩ ∧
    (8 : ℚ) ≤ oScnB.plotY1 + (oScnB.inset + 4) ∧
    (12 : ℚ) ≤ oScnB.plotX1 + (oScnB.inset + 4) ∧
    ArrowSide.right ≠ ArrowSide.bottom := by
  refine ⟨?_, by norm_num [oScnB], by norm_num [oScnB], by simp⟩
  obtain ⟨rest, hg⟩ := gridCandidates_head oScnB 49 0 rfl rfl
  have hbest := noteBestCand_nil_segs oScnB (by norm_num [oScnB]) _ rest hg
  simp only [placeNoteAuto]
  rw [show collectAllSegs [] [] [] oScnB = [] from rfl, hbest]
  show placeFrom oScnB _ _ = _
  norm_num [placeFrom, clamp, oScnB, min_def, max_def]

theorem noteBestFold_first_max (segs : List LineSeg) (o : NotePlacementOptions) :
    ∀ (l : List (ℚ × ℚ)) (b : ℚ × ℚ),
      ∃ l₁ l₂ r, b :: l = l₁ ++ r :: l₂ ∧
        l.foldl (noteBestStep segs o) (some (b, candScore segs o b))
          = some (r, candScore segs o r) ∧
        (∀ x ∈ l₁, candScore segs o x < candScore segs o r) ∧
        (∀ x ∈ l₂, candScore segs o x ≤ candScore segs o r) := by
  intro l
  induction l with
  | nil =>
    intro b
    exact ⟨[], [], b, rfl, rfl, by simp, by simp⟩
  | cons c l ih =>
    intro b
    rw [List.foldl_cons, noteBestStep_some]
    by_cases h : candScore segs o b < candScore segs o c
    · rw [if_pos h]
      obtain ⟨l₁, l₂, r, heq, hfold, h1, h2⟩ := ih c
      have hcr : candScore segs o c ≤ candScore segs o r := by
        cases l₁ with
        | nil =>
          rw [List.nil_append, List.cons.injEq] at heq
          rw [heq.1]
        | cons a l₁' =>
          rw [List.cons_append, List.cons.injEq] at heq
          exact le_of_lt (heq.1 ▸ h1 a (List.mem_cons_self a l₁'))
      refine ⟨b :: l₁, l₂, r, ?_, hfold, ?_, h2⟩
      · rw [List.cons_append, ← heq]
      · intro x hx
        rcases List.mem_cons.1 hx with rfl | hx
        · exact lt_of_lt_of_le h hcr
        · exact h1 x hx
    · rw [if_neg h]
      obtain ⟨l₁, l₂, r, heq, hfold, h1, h2⟩ := ih b
      cases l₁ with
      | nil =>
        rw [List.nil_append, List.cons.injEq] at heq
        obtain ⟨hbr, hll⟩ := heq
        refine ⟨[], c :: l₂, r, ?_, hfold, by simp, ?_⟩
        · rw [List.nil_append, List.cons.injEq]
          exact ⟨hbr, by rw [List.cons.injEq]; exact ⟨rfl, hll⟩⟩
        · intro x hx
          rcases List.mem_cons.1 hx with rfl | hx
          · rw [← hbr]
            exact not_lt.1 h
          · exact h2 x hx
      | cons a l₁' =>
        rw [List.cons_append, List.cons.injEq] at heq
        obtain ⟨hba, hll⟩ := heq
        have hbr : candScore segs o b < candScore segs o r :=
          hba ▸ h1 a (List.mem_cons_self a l₁')
        refine ⟨b :: c :: l₁', l₂, r, ?_, hfold, ?_, h2⟩
        · rw [List.cons_append, List.cons_append, List.cons.injEq]
          exact ⟨rfl, by rw [List.cons.injEq]; exact ⟨rfl, hll⟩⟩
        · intro x hx
          rcases List.mem_cons.1 hx with rfl | hx
          · exact hbr
          · rcases List.mem_cons.1 hx with rfl | hx
            · exact lt_of_le_of_lt (not_lt.1 h) hbr
            · exact h1 x (List.mem_cons_of_mem a hx)

/-- C6 amended: `placeNoteAuto` selects the candidate with the largest
biased score (minimum distance times `forecastBias` exactly when the
candidate's x is at or right of `splitX`, times 1 otherwise), and on
ties the winner is the first candidate in the source's column-major scan
order (all rows of the first column, top to bottom, before any candidate
of the second column): every candidate scanned before the winner scores
strictly less, every one after scores at most the winner. -/
theorem placeNoteAuto_column_major (actual predicted : Series)
    (historical : List Series) (L : ℕ) (o : NotePlacementOptions)
    (hcols : 0 < o.cols) (hrows : 0 < o.rows) :
    ∃ l₁ l₂ c, gridCandidates o = l₁ ++ c :: l₂ ∧
      noteBestCand (collectAllSegs actual predicted historical o) o
        = some (c, candScore (collectAllSegs actual predicted historical o) o c) ∧
      (∀ x ∈ l₁, candScore (collectAllSegs actual predicted historical o) o x
          < candScore (collectAllSegs actual predicted historical o) o c) ∧
      (∀ x ∈ l₂, candScore (collectAllSegs actual predicted historical o) o x
          ≤ candScore (collectAllSegs actual predicted historical o) o c) ∧
      placeNoteAuto actual predicted historical L o = placeFrom o c.1 c.2 ∧
      candScore (collectAllSegs actual predicted historical o) o c
        = minDistTo (collectAllSegs actual predicted historical o) c.1 c.2 *
          (((if o.xOfIndex o.predictStartIndex ≤ c.1 then o.forecastBias
              else 1 : ℚ) : ℝ) : EReal) := by
  obtain ⟨ck, hc⟩ := Nat.exists_eq_succ_of_ne_zero hcols.ne'
  obtain ⟨rk, hr⟩ := Nat.exists_eq_succ_of_ne_zero hrows.ne'
  obtain ⟨rest, hg⟩ := gridCandidates_head o ck rk hc hr
  obtain ⟨l₁, l₂, r, heq, hfold, h1, h2⟩ :=
    noteBestFold_first_max (collectAllSegs actual predicted historical o) o rest
      (o.plotX1 + ((1 / 2 : ℚ) / (o.cols : ℚ)) * (o.plotX2 - o.plotX1),
       o.plotY1 + ((1 / 2 : ℚ) / (o.rows : ℚ)) * (o.plotY2 - o.plotY1))
  have hbest : noteBestCand (collectAllSegs actual predicted historical o) o
      = some (r, candScore (collectAllSegs actual predicted historical o) o r) := by
    unfold noteBestCand
    rw [hg, List.foldl_cons, noteBestStep_none]
    exact hfold
  refine ⟨l₁, l₂, r, by rw [hg, heq], hbest, h1, h2, ?_, rfl⟩
  simp only [placeNoteAuto]
  rw [hbest]

/-- Witness for C6's amended statement at the empty dataset with the
`8×4` grid options `oScnA`. -/
theorem placeNoteAuto_column_major_witness :
    ∃ l₁ l₂ c, gridCandidates oScnA = l₁ ++ c :: l₂ ∧
      noteBestCand (collectAllSegs [] [] [] oScnA) oScnA
        = some (c, candScore (collectAllSegs [] [] [] oScnA) oScnA c) ∧
      (∀ x ∈ l₁, candScore (collectAllSegs [] [] [] oScnA) oScnA x
          < candScore (collectAllSegs [] [] [] oScnA) oScnA c) ∧
      (∀ x ∈ l₂, candScore (collectAllSegs [] [] [] oScnA) oScnA x
          ≤ candScore (collectAllSegs [] [] [] oScnA) oScnA c) ∧
      placeNoteAuto [] [] [] 0 oScnA = placeFrom oScnA c.1 c.2 ∧
      candScore (collectAllSegs [] [] [] oScnA) oScnA c
        = minDistTo (collectAllSegs [] [] [] oScnA) c.1 c.2 *
          (((if oScnA.xOfIndex oScnA.predictStartIndex ≤ c.1 then oScnA.forecastBias
              else 1 : ℚ) : ℝ) : EReal) :=
  placeNoteAuto_column_major [] [] [] 0 oScnA
    (by norm_num [oScnA]) (by norm_num [oScnA])

theorem sqrt_eval (x r : ℝ) (hr : 0 ≤ r) (h : x = r ^ 2) : Real.sqrt x = r := by
  rw [h, Real.sqrt_sq hr]

theorem distPointToSeg_degenerate (px py a b : ℚ) :
    distPointToSeg px py ⟨a, b, a, b⟩
      = Real.sqrt (((px - a : ℚ) : ℝ) ^ 2 + ((py - b : ℚ) : ℝ) ^ 2) := by
  have hdot : distDot px py ⟨a, b, a, b⟩ = 0 := by
    unfold distDot
    norm_num
  have hlen : distLenSq ⟨a, b, a, b⟩ = 1 := by
    unfold distLenSq jsOr1
    norm_num
  have ht : tParam px py ⟨a, b, a, b⟩ = 0 := by
    unfold tParam
    rw [hdot, hlen]
    norm_num
  simp only [distPointToSeg, ht]
  norm_num

/-- C6 counterexample: plot `[0,800]×[0,400]`, `2×2` grid, two degenerate
segments at `(200,100)` and `(600,300)` (options `oScnC`, series
`actualScnC`), `splitX = 1000` so no candidate is biased.  The candidates
`(200,300)` and `(600,100)` tie with biased score 200.  The code scans
column-major and returns the placement anchored at `(200,300)`
(`{208, 216, top}`); the claimed row-major scan would pick `(600,100)`
and return `{472, 16, left}`. -/
theorem placeNoteAuto_not_row_major :
    placeNoteAuto actualScnC [] [] 5 oScnC = ⟨208, 216, ArrowSide.top⟩ ∧
    placeNoteAutoRowMajor actualScnC [] [] 5 oScnC = ⟨472, 16, ArrowSide.left⟩ ∧
    (⟨208, 216, ArrowSide.top⟩ : PlacementResult) ≠ ⟨472, 16, ArrowSide.left⟩ := by
  have hdA1 : distPointToSeg 200 100 ⟨200, 100, 200, 100⟩ = 0 := by
    rw [distPointToSeg_degenerate]
    exact sqrt_eval _ 0 le_rfl (by push_cast; norm_num)
  have hdB1 : distPointToSeg 200 300 ⟨200, 100, 200, 100⟩ = 200 := by
    rw [distPointToSeg_degenerate]
    exact sqrt_eval _ 200 (by norm_num) (by push_cast; norm_num)
  have hdB2 : distPointToSeg 200 300 ⟨600, 300, 600, 300⟩ = 400 := by
    rw [distPointToSeg_degenerate]
    exact sqrt_eval _ 400 (by norm_num) (by push_cast; norm_num)
  have hdC1 : distPointToSeg 600 100 ⟨200, 100, 200, 100⟩ = 400 := by
    rw [distPointToSeg_degenerate]
    exact sqrt_eval _ 400 (by norm_num) (by push_cast; norm_num)
  have hdC2 : distPointToSeg 600 100 ⟨600, 300, 600, 300⟩ = 200 := by
    rw [distPointToSeg_degenerate]
    exact sqrt_eval _ 200 (by norm_num) (by push_cast; norm_num)
  have hdD2 : distPointToSeg 600 300 ⟨600, 300, 600, 300⟩ = 0 := by
    rw [distPointToSeg_degenerate]
    exact sqrt_eval _ 0 le_rfl (by push_cast; norm_num)
  have hmA : minDistTo [⟨200, 100, 200, 100⟩, ⟨600, 300, 600, 300⟩] 200 100
      = ((0 : ℝ) : EReal) := by
    have hnn : (0 : ℝ) ≤ distPointToSeg 200 100 ⟨600, 300, 600, 300⟩ :=
      Real.sqrt_nonneg _
    simp only [minDistTo, List.foldl_cons, List.foldl_nil]
    rw [hdA1, if_pos (EReal.coe_lt_top 0),
      if_neg (not_lt.2 (EReal.coe_le_coe_iff.2 hnn))]
  have hmB : minDistTo [⟨200, 100, 200, 100⟩, ⟨600, 300, 600, 300⟩] 200 300
      = ((200 : ℝ) : EReal) := by
    simp only [minDistTo, List.foldl_cons, List.foldl_nil]
    rw [hdB1, if_pos (EReal.coe_lt_top 200), hdB2,
      if_neg (not_lt.2 (EReal.coe_le_coe_iff.2 (by norm_num : (200 : ℝ) ≤ 400)))]
  have hmC : minDistTo [⟨200, 100, 200, 100⟩, ⟨600, 300, 600, 300⟩] 600 100
      = ((200 : ℝ) : EReal) := by
    simp only [minDistTo, List.foldl_cons, List.foldl_nil]
    rw [hdC1, if_pos (EReal.coe_lt_top 400), hdC2,
      if_pos (EReal.coe_lt_coe_iff.2 (by norm_num : (200 : ℝ) < 400))]
  have hmD : minDistTo [⟨200, 100, 200, 100⟩, ⟨600, 300, 600, 300⟩] 600 300
      = ((0 : ℝ) : EReal) := by
    simp only [minDistTo, List.foldl_cons, List.foldl_nil]
    rw [distPointToSeg_degenerate 600 300 200 100, hdD2,
      if_pos (EReal.coe_lt_top _),
      if_pos (EReal.coe_lt_coe_iff.2 (Real.sqrt_pos.2 (by push_cast; norm_num)))]
  have hnob : ∀ gx : ℚ, gx < 1000 →
      ¬(oScnC.xOfIndex oScnC.predictStartIndex ≤ gx) := by
    intro gx hgx
    norm_num [oScnC, xScnC]
    linarith
  have hsA : candScore [⟨200, 100, 200, 100⟩, ⟨600, 300, 600, 300⟩] oScnC (200, 100)
      = ((0 : ℝ) : EReal) := by
    unfold candScore
    dsimp only
    rw [hmA, if_neg (hnob 200 (by norm_num)), Rat.cast_one, EReal.coe_one, mul_one]
  have hsB : candScore [⟨200, 100, 200, 100⟩, ⟨600, 300, 600, 300⟩] oScnC (200, 300)
      = ((200 : ℝ) : EReal) := by
    unfold candScore
    dsimp only
    rw [hmB, if_neg (hnob 200 (by norm_num)), Rat.cast_one, EReal.coe_one, mul_one]
  have hsC : candScore [⟨200, 100, 200, 100⟩, ⟨600, 300, 600, 300⟩] oScnC (600, 100)
      = ((200 : ℝ) : EReal) := by
    unfold candScore
    dsimp only
    rw [hmC, if_neg (hnob 600 (by norm_num)), Rat.cast_one, EReal.coe_one, mul_one]
  have hsD : candScore [⟨200, 100, 200, 100⟩, ⟨600, 300, 600, 300⟩] oScnC (600, 300)
      = ((0 : ℝ) : EReal) := by
    unfold candScore
    dsimp only
    rw [hmD, if_neg (hnob 600 (by norm_num)), Rat.cast_one, EReal.coe_one, mul_one]
  have hsegs : collectAllSegs actualScnC [] [] oScnC
      = [⟨200, 100, 200, 100⟩, ⟨600, 300, 600, 300⟩] := by decide
  have hgrid : gridCandidates oScnC = [(200, 100), (200, 300), (600, 100), (600, 300)] := by
    norm_num [gridCandidates, oScnC, List.range_succ, List.flatMap_cons, List.flatMap_nil]
  have hgridRM : gridCandidatesRowMajor oScnC
      = [(200, 100), (600, 100), (200, 300), (600, 300)] := by
    norm_num [gridCandidatesRowMajor, oScnC, List.range_succ, List.flatMap_cons,
      List.flatMap_nil]
  have hbest : noteBestCand [⟨200, 100, 200, 100⟩, ⟨600, 300, 600, 300⟩] oScnC
      = some ((200, 300), ((200 : ℝ) : EReal)) := by
    unfold noteBestCand
    rw [hgrid, List.foldl_cons, List.foldl_cons, List.foldl_cons, List.foldl_cons,
      List.foldl_nil, noteBestStep_none, hsA, noteBestStep_some, hsB]
    rw [if_pos (EReal.coe_lt_coe_iff.2 (by norm_num : (0 : ℝ) < 200))]
    rw [noteBestStep_some, hsC, if_neg (lt_irrefl _)]
    rw [noteBestStep_some, hsD,
      if_neg (not_lt.2 (EReal.coe_le_coe_iff.2 (by norm_num : (0 : ℝ) ≤ 200)))]
  have hbestRM : (gridCandidatesRowMajor oScnC).foldl
      (noteBestStep [⟨200, 100, 200, 100⟩, ⟨600, 300, 600, 300⟩] oScnC) none
      = some ((600, 100), ((200 : ℝ) : EReal)) := by
    rw [hgridRM, List.foldl_cons, List.foldl_cons, List.foldl_cons, List.foldl_cons,
      List.foldl_nil, noteBestStep_none, hsA, noteBestStep_some, hsC]
    rw [if_pos (EReal.coe_lt_coe_iff.2 (by norm_num : (0 : ℝ) < 200))]
    rw [noteBestStep_some, hsB, if_neg (lt_irrefl _)]
    rw [noteBestStep_some, hsD,
      if_neg (not_lt.2 (EReal.coe_le_coe_iff.2 (by norm_num : (0 : ℝ) ≤ 200)))]
  refine ⟨?_, ?_, by simp⟩
  · have hplace : placeNoteAuto actualScnC [] [] 5 oScnC = placeFrom oScnC 200 300 := by
      simp only [placeNoteAuto]
      rw [hsegs, hbest]
    rw [hplace]
    norm_num [placeFrom, clamp, oScnC, min_def, max_def]
  · have hplace : placeNoteAutoRowMajor actualScnC [] [] 5 oScnC
        = placeFrom oScnC 600 100 := by
      simp only [placeNoteAutoRowMajor]
      rw [hsegs, hbestRM]
    rw [hplace]
    norm_num [placeFrom, clamp, oScnC, min_def, max_def]
